import Mathlib

/-!
Shallow embedding of the Speech-to-Text-Tool repository
(src/speech_to_text.py and src/speech_to_text_stream.py).

File names, directory listings and remote-store listings are modelled as
`List String`; the filesystem and the cloud bucket are explicit fields of a
`PipelineState` record that each stage function transforms.  External
services (ffmpeg, the storage client, the speech client) are modelled by
their observable effect on that state: a successful ffmpeg invocation
creates the target artifact, a successful upload adds the blob name to the
remote listing, and the speech service's answer is a parameter
(`responses`) mapping a blob name to its list of result segments.
-/

namespace SpeechToText

/-- Embedding of Python's `os.path.splitext` extension component (the part
from the last dot on), restricted to plain basenames as returned by
`os.listdir`: the extension is empty when the name has no dot or when every
character before the last dot is itself a dot (the leading-dot rule for
dotfiles such as `.mp4`). -/
def fileExt (cs : List Char) : List Char :=
  let r := cs.reverse
  match r.dropWhile (fun c => c != '.') with
  | [] => []
  | _ :: before =>
    if before.any (fun c => c != '.') then
      '.' :: (r.takeWhile (fun c => c != '.')).reverse
    else []

/-- `get_file_extension` from src/speech_to_text.py line 56:
`os.path.splitext(file_name)[1].lower()[1:]` — the extension, lowercased,
without its leading dot. -/
def get_file_extension (file_name : String) : String :=
  String.mk (((fileExt file_name.data).map Char.toLower).drop 1)

/-- Python slicing `s[:-n]` (for `n ≥ 1`): the string without its last `n`
characters, empty when the string has at most `n` characters. -/
def dropLastChars (s : String) (n : Nat) : String :=
  String.mk (s.data.take (s.data.length - n))

/-- `get_language_code` from src/speech_to_text.py lines 67-76. -/
def get_language_code (language : String) : String :=
  if language = "zh" then "zh"
  else if language = "hk" then "zh-HK"
  else if language = "tw" then "zh-TW"
  else if language = "en" then "en-US"
  else "yue-Hant-HK"

/-- The observable state the batch pipeline acts on: the listing of the
three local directories (plus whether each directory exists at all), the
per-stem transcript files of the text directory, and the listing of the
remote bucket.  Directory listings carry bare file names, exactly what
`os.listdir` / `bucket.list_blobs` hand to the source code. -/
@[ext]
structure PipelineState where
  videoDirExists : Bool
  videoFiles : List String
  audioDirExists : Bool
  audioFiles : List String
  textDirExists : Bool
  textFiles : List (String × List String)
  remoteBlobs : List String
deriving DecidableEq

/-- Outcome of `check_directory`: `sys.exit(code)` (process termination,
raising no ordinary exception) or a normal return with the state after the
side effects. -/
inductive CheckResult where
  | exited (code : Nat)
  | ok (s : PipelineState)
deriving DecidableEq

/-- `check_directory` from src/speech_to_text.py lines 79-105: exit with
status 0 when the video directory is absent, exit with status 0 when it
holds no file whose extension is `mp4`, otherwise create the audio and
text directories when absent and return. -/
def check_directory (s : PipelineState) : CheckResult :=
  if s.videoDirExists then
    if ∃ f ∈ s.videoFiles, get_file_extension f = "mp4" then
      CheckResult.ok { s with audioDirExists := true, textDirExists := true }
    else CheckResult.exited 0
  else CheckResult.exited 0

/-- The audio artifact name `"{}.flac".format(file_name[:-4])` built in
src/speech_to_text.py line 114. -/
def flacName (file_name : String) : String :=
  dropLastChars file_name 4 ++ ".flac"

/-- Loop body of `extract_audio_from_video` (src/speech_to_text.py lines
110-124), folded over the video-directory listing.  The running audio
listing is threaded because a successful ffmpeg invocation creates the
`.flac` artifact that later iterations' existence checks see; an
invocation happens exactly when a name is appended to the accumulator. -/
def extractGo : List String → List String → List String → List String × List String
  | audio, acc, [] => (acc, audio)
  | audio, acc, f :: rest =>
    if get_file_extension f = "mp4" then
      if flacName f ∈ audio then extractGo audio acc rest
      else extractGo (audio ++ [flacName f]) (acc ++ [f]) rest
    else extractGo audio acc rest

/-- `extract_audio_from_video` from src/speech_to_text.py lines 107-125:
for every `mp4` file of the video directory whose `.flac` artifact is not
yet present, invoke ffmpeg (modelled as creating the artifact) and record
the file name; return the recorded names. -/
def extract_audio_from_video (s : PipelineState) : List String × PipelineState :=
  ((extractGo s.audioFiles [] s.videoFiles).1,
   { s with audioFiles := (extractGo s.audioFiles [] s.videoFiles).2 })

/-- Loop body of `upload_audio_to_cloud_storage` (src/speech_to_text.py
lines 139-149), folded over the audio-directory listing.  `snapshot` is
the membership set built from the single `list_blobs` call made before the
loop; it is never updated, while the real remote listing grows with every
upload. -/
def uploadGo (snapshot : List String) :
    List String → List String → List String → List String × List String
  | remote, acc, [] => (acc, remote)
  | remote, acc, f :: rest =>
    if get_file_extension f = "flac" ∧ f ∉ snapshot then
      uploadGo snapshot (remote ++ [f]) (acc ++ [f]) rest
    else uploadGo snapshot remote acc rest

/-- `upload_audio_to_cloud_storage` from src/speech_to_text.py lines
127-150: list the bucket once into a set, then upload every `.flac` file
of the audio directory whose name is not in that set, returning the names
actually uploaded. -/
def upload_audio_to_cloud_storage (s : PipelineState) : List String × PipelineState :=
  ((uploadGo s.remoteBlobs s.remoteBlobs [] s.audioFiles).1,
   { s with remoteBlobs := (uploadGo s.remoteBlobs s.remoteBlobs [] s.audioFiles).2 })

/-- One server result segment: the transcripts of its `alternatives`,
split as head (`alternatives[0]`, always present in a returned result) and
tail, so that the source's `result.alternatives[0].transcript` is total. -/
abbrev RecogResult := String × List String

/-- The lines written for one response in src/speech_to_text.py lines
180-182: one line per result segment, in arrival order, holding only the
top-ranked alternative's transcript. -/
def transcriptLines (results : List RecogResult) : List String :=
  results.map (fun r => r.1)

/-- Writing a file opened with mode `"w+"`: the previous content of the
file named `key` (if any) is discarded and replaced by `value`. -/
def setFile (key : String) (value : List String) :
    List (String × List String) → List (String × List String)
  | [] => [(key, value)]
  | kv :: rest => if kv.1 = key then (key, value) :: rest else kv :: setFile key value rest

/-- The content of the transcript file named `key`, when present. -/
def lookupFile (key : String) (files : List (String × List String)) :
    Option (List String) :=
  (files.find? (fun kv => kv.1 == key)).map (fun kv => kv.2)

/-- Loop body of `recognize_speech_from_audio` (src/speech_to_text.py
lines 161-184), folded over the remote listing: for every blob with
extension `flac`, create the text directory when absent, overwrite the
transcript file of the blob's stem (`blob.name[:-5]`) with one line per
result segment of the service's response, and record the blob name. -/
def recognizeGo (responses : String → List RecogResult) :
    List (String × List String) → Bool → List String → List String →
    List String × List (String × List String) × Bool
  | tf, dirE, acc, [] => (acc, tf, dirE)
  | tf, dirE, acc, b :: rest =>
    if get_file_extension b = "flac" then
      recognizeGo responses
        (setFile (dropLastChars b 5) (transcriptLines (responses b)) tf)
        true (acc ++ [b]) rest
    else recognizeGo responses tf dirE acc rest

/-- `recognize_speech_from_audio` from src/speech_to_text.py lines
152-185.  The speech service is abstracted by `responses`, mapping a blob
name to the result segments of the completed long-running operation; the
`language` argument only shapes the request configuration and is carried
for fidelity. -/
def recognize_speech_from_audio (language : String)
    (responses : String → List RecogResult) (s : PipelineState) :
    List String × PipelineState :=
  ((recognizeGo responses s.textFiles s.textDirExists [] s.remoteBlobs).1,
   { s with
      textFiles := (recognizeGo responses s.textFiles s.textDirExists [] s.remoteBlobs).2.1,
      textDirExists := (recognizeGo responses s.textFiles s.textDirExists [] s.remoteBlobs).2.2 })

/-- The full batch pipeline as run by `main` (src/speech_to_text.py lines
225-253): `check_directory`, then the three stages in order.  `none` means
the run terminated inside `check_directory`; otherwise the three returned
lists and the final state are produced.  The `language` argument is
`args.language`. -/
def runPipeline (language : String) (responses : String → List RecogResult)
    (s0 : PipelineState) :
    Option (List String × List String × List String × PipelineState) :=
  match check_directory s0 with
  | CheckResult.exited _ => none
  | CheckResult.ok s1 =>
    some ((extract_audio_from_video s1).1,
      (upload_audio_to_cloud_storage (extract_audio_from_video s1).2).1,
      (recognize_speech_from_audio language responses
        (upload_audio_to_cloud_storage (extract_audio_from_video s1).2).2).1,
      (recognize_speech_from_audio language responses
        (upload_audio_to_cloud_storage (extract_audio_from_video s1).2).2).2)

end SpeechToText

namespace SpeechToTextStream

/-- `get_language_code` from src/speech_to_text_stream.py lines 89-98 (a
verbatim second copy of the function in src/speech_to_text.py). -/
def get_language_code (language : String) : String :=
  if language = "zh" then "zh"
  else if language = "hk" then "zh-HK"
  else if language = "tw" then "zh-TW"
  else if language = "en" then "en-US"
  else "yue-Hant-HK"

/-- One raw audio buffer handed to `_fill_buffer` by the device callback;
a queue slot holds either such a chunk or the `None` sentinel pushed at
device close, modelled as `Option Chunk`. -/
abbrev Chunk := List UInt8

/-- The inner non-blocking drain of `MicrophoneStream.generator`
(src/speech_to_text_stream.py lines 78-85) over the chunks available in
the queue: on `queue.Empty` (list exhausted) break and hand back the
accumulated data; on the `None` sentinel return from the generator at
once, discarding the accumulated data. -/
def drainRound : List Chunk → List (Option Chunk) → Option (List Chunk)
  | acc, [] => some acc
  | _, none :: _ => none
  | acc, some c :: rest => drainRound (acc ++ [c]) rest

/-- `MicrophoneStream.generator` from src/speech_to_text_stream.py lines
66-87, run against the successive queue contents observed at each
blocking `get` (one inner list per outer-loop iteration; concurrent
producer puts land in later rounds).  An empty round means the blocking
`get` finds nothing and blocks, ending the modelled trace; a round whose
blocking `get` or drain meets the sentinel ends the generator with no
further frames; otherwise the drained chunks are joined with `b''.join`
into one yielded frame. -/
def generator : List (List (Option Chunk)) → List (List UInt8)
  | [] => []
  | [] :: _ => []
  | (none :: _) :: _ => []
  | (some c :: cs) :: rest =>
    match drainRound [c] cs with
    | none => []
    | some data => data.flatten :: generator rest

/-- Word character of the regex `\b` boundary in
`re.search(r'\b(exit|quit)\b', transcript, re.I)` — the embedding covers
the ASCII fragment of Python's `\w` (letters, digits, underscore). -/
def isWordChar (c : Char) : Bool := c.isAlphanum || c == '_'

/-- The position after a candidate keyword match admits a `\b` boundary:
end of string or a non-word character. -/
def kwBoundaryAfter : List Char → Bool
  | [] => true
  | c :: _ => !(isWordChar c)

/-- A case-insensitive occurrence of `exit` or `quit` starts here and is
followed by a `\b` boundary. -/
def kwHere : List Char → Bool
  | c1 :: c2 :: c3 :: c4 :: rest =>
    (([c1, c2, c3, c4].map Char.toLower == ['e', 'x', 'i', 't']) ||
     ([c1, c2, c3, c4].map Char.toLower == ['q', 'u', 'i', 't'])) &&
    kwBoundaryAfter rest
  | _ => false

/-- Scan every position; `prevWord` records whether the preceding
character is a word character, so a match may start only at a `\b`
boundary. -/
def kwScan : Bool → List Char → Bool
  | _, [] => false
  | prevWord, c :: rest => (!prevWord && kwHere (c :: rest)) || kwScan (isWordChar c) rest

/-- Embedding of `re.search(r'\b(exit|quit)\b', transcript, re.I)` from
src/speech_to_text_stream.py line 159: does the transcript contain a
standalone, case-insensitive `exit` or `quit`? -/
def containsExitKeyword (transcript : String) : Bool :=
  kwScan false transcript.data

/-- One streaming recognition result: the transcripts of its alternatives
and its `is_final` flag. -/
structure StreamResult where
  alternatives : List String
  is_final : Bool
deriving DecidableEq

/-- One streaming response: its list of results. -/
structure StreamResponse where
  results : List StreamResult
deriving DecidableEq

/-- Observable output of one `listen_print_loop` iteration:
`interimDisplay line` is `sys.stdout.write(line + '\r')`,
`finalDisplay line` is `print(line)` (a newline follows the payload), and
`filePersist line` is `result_file.write(line + '\n')`. -/
inductive OutEvent where
  | interimDisplay (line : String)
  | finalDisplay (line : String)
  | filePersist (line : String)
deriving DecidableEq

/-- `' ' * (num_chars_printed - len(transcript))` from
src/speech_to_text_stream.py line 145; Python's `' ' * n` is empty for
`n ≤ 0`, which truncated `Nat` subtraction models exactly. -/
def overwrite_chars (num_chars_printed transcript_len : Nat) : String :=
  String.mk (List.replicate (num_chars_printed - transcript_len) ' ')

/-- One iteration of the `for response in responses` body of
`listen_print_loop` (src/speech_to_text_stream.py lines 126-163): skip a
response without results or whose first result has no alternatives;
otherwise display the top alternative, padded to erase a longer previous
interim line.  Returns the emitted events, the new `num_chars_printed`,
and whether the loop `break`s (final transcript holding an exit keyword —
note the `break` fires before the tracker reset). -/
def loopStep (num_chars_printed : Nat) (response : StreamResponse) :
    List OutEvent × Nat × Bool :=
  match response.results with
  | [] => ([], num_chars_printed, false)
  | result :: _ =>
    match result.alternatives with
    | [] => ([], num_chars_printed, false)
    | transcript :: _ =>
      let ow := overwrite_chars num_chars_printed transcript.length
      if result.is_final = false then
        ([OutEvent.interimDisplay (transcript ++ ow)], transcript.length, false)
      else if containsExitKeyword transcript then
        ([OutEvent.finalDisplay (transcript ++ ow),
          OutEvent.filePersist (transcript ++ ow)], num_chars_printed, true)
      else
        ([OutEvent.finalDisplay (transcript ++ ow),
          OutEvent.filePersist (transcript ++ ow)], 0, false)

/-- The response loop of `listen_print_loop`, iterated from a given
tracker value. -/
def listenGo : Nat → List StreamResponse → List OutEvent
  | _, [] => []
  | num, resp :: rest =>
    (loopStep num resp).1 ++
      (if (loopStep num resp).2.2 then [] else listenGo (loopStep num resp).2.1 rest)

/-- `listen_print_loop` from src/speech_to_text_stream.py lines 100-163,
as the event trace produced for a (finite prefix of the) response
sequence, starting with `num_chars_printed = 0` and a freshly created
(`"w+"`, hence empty) session transcript file. -/
def listen_print_loop (responses : List StreamResponse) : List OutEvent :=
  listenGo 0 responses

/-- The lines accumulated in the session transcript file: the payloads of
the `filePersist` events, in order. -/
def fileLines (events : List OutEvent) : List String :=
  events.filterMap (fun e =>
    match e with
    | OutEvent.filePersist line => some line
    | _ => none)

/-- A response carrying a single interim result with a single
alternative. -/
def interimResponse (transcript : String) : StreamResponse :=
  { results := [{ alternatives := [transcript], is_final := false }] }

/-- A response carrying a single final result with a single
alternative. -/
def finalResponse (transcript : String) : StreamResponse :=
  { results := [{ alternatives := [transcript], is_final := true }] }

end SpeechToTextStream

/-- A minimal concrete pipeline state: one video `a.mp4`, empty audio and
text directories, empty remote store. -/
def videoOnlyState : SpeechToText.PipelineState :=
  { videoDirExists := true, videoFiles := ["a.mp4"], audioDirExists := true,
    audioFiles := [], textDirExists := true, textFiles := [], remoteBlobs := [] }

section Lemmas

open SpeechToText

/-- Unfolding of `uploadGo`: the names uploaded are exactly the
audio-directory files with extension `flac` missing from the pre-loop
snapshot, in listing order, and the remote listing grows by exactly those
names. -/
theorem uploadGo_spec (snapshot files : List String) :
    ∀ remote acc, uploadGo snapshot remote acc files =
      (acc ++ files.filter
        (fun f => decide (get_file_extension f = "flac" ∧ f ∉ snapshot)),
       remote ++ files.filter
        (fun f => decide (get_file_extension f = "flac" ∧ f ∉ snapshot))) := by
  induction files with
  | nil => intro remote acc; simp [uploadGo]
  | cons f rest ih =>
    intro remote acc
    by_cases h : get_file_extension f = "flac" ∧ f ∉ snapshot
    · simp [uploadGo, h, ih, List.filter_cons]
    · simp [uploadGo, h, ih, List.filter_cons]

/-- The audio artifacts present before the loop stay present: the audio
listing threaded through `extractGo` only grows. -/
theorem extractGo_audio_mono (videos : List String) :
    ∀ audio acc x, x ∈ audio → x ∈ (extractGo audio acc videos).2 := by
  induction videos with
  | nil => intro audio acc x hx; simpa [extractGo] using hx
  | cons f rest ih =>
    intro audio acc x hx
    by_cases hm : get_file_extension f = "mp4"
    · by_cases hin : flacName f ∈ audio
      · simpa [extractGo, hm, hin] using ih audio acc x hx
      · simp only [extractGo, hm, hin, if_true, if_false]
        exact ih _ _ x (by simp [hx])
    · simpa [extractGo, hm] using ih audio acc x hx

/-- After the loop, every `mp4` file of the listing has its `.flac`
artifact in the audio directory (it existed before, or ffmpeg created
it). -/
theorem extractGo_ensures (videos : List String) :
    ∀ audio acc f, f ∈ videos → get_file_extension f = "mp4" →
      flacName f ∈ (extractGo audio acc videos).2 := by
  induction videos with
  | nil => intro _ _ f hf; cases hf
  | cons g rest ih =>
    intro audio acc f hf hm
    rcases List.mem_cons.mp hf with hfg | hftail
    · subst hfg
      by_cases hin : flacName f ∈ audio
      · simp only [extractGo, hm, hin, if_true]
        exact extractGo_audio_mono rest audio acc _ hin
      · simp only [extractGo, hm, hin, if_true, if_false]
        exact extractGo_audio_mono rest _ _ _ (by simp)
    · by_cases hgm : get_file_extension g = "mp4"
      · by_cases hin : flacName g ∈ audio
        · simpa [extractGo, hgm, hin] using ih audio acc f hftail hm
        · simp only [extractGo, hgm, hin, if_true, if_false]
          exact ih _ _ f hftail hm
      · simpa [extractGo, hgm] using ih audio acc f hftail hm

/-- When every `mp4` file's artifact already exists, the loop is a no-op:
nothing is transcoded and the audio directory is unchanged. -/
theorem extractGo_skip (videos : List String) :
    ∀ audio acc,
      (∀ f ∈ videos, get_file_extension f = "mp4" → flacName f ∈ audio) →
      extractGo audio acc videos = (acc, audio) := by
  induction videos with
  | nil => intro audio acc _; rfl
  | cons f rest ih =>
    intro audio acc h
    by_cases hm : get_file_extension f = "mp4"
    · have hin : flacName f ∈ audio := h f (by simp) hm
      simp only [extractGo, hm, hin, if_true]
      exact ih audio acc (fun g hg => h g (by simp [hg]))
    · simp only [extractGo, hm, if_false]
      exact ih audio acc (fun g hg => h g (by simp [hg]))

/-- Unfolding of `extractGo` when distinct `mp4` files have distinct
artifact names: the processed files are exactly the `mp4` files whose
artifact is absent from the initial audio listing, and the audio listing
grows by exactly their artifacts. -/
theorem extractGo_filter (videos : List String) :
    ∀ audio acc,
      ((videos.filter (fun f => decide (get_file_extension f = "mp4"))).map flacName).Nodup →
      extractGo audio acc videos =
        (acc ++ videos.filter
          (fun f => decide (get_file_extension f = "mp4" ∧ flacName f ∉ audio)),
         audio ++ (videos.filter
          (fun f => decide (get_file_extension f = "mp4" ∧ flacName f ∉ audio))).map
            flacName) := by
  induction videos with
  | nil => intro audio acc _; simp [extractGo]
  | cons f rest ih =>
    intro audio acc hnd
    by_cases hm : get_file_extension f = "mp4"
    · rw [List.filter_cons_of_pos (by simp [hm])] at hnd
      rw [List.map_cons, List.nodup_cons] at hnd
      obtain ⟨hni, hnd'⟩ := hnd
      by_cases hin : flacName f ∈ audio
      · have hpred : ¬(get_file_extension f = "mp4" ∧ flacName f ∉ audio) := by
          intro h; exact h.2 hin
        simp only [extractGo, hm, hin, if_true]
        rw [ih audio acc hnd', List.filter_cons_of_neg (by simpa using hpred)]
      · have hcongr : rest.filter
            (fun g => decide (get_file_extension g = "mp4" ∧
              flacName g ∉ audio ++ [flacName f])) =
            rest.filter
            (fun g => decide (get_file_extension g = "mp4" ∧ flacName g ∉ audio)) := by
          apply List.filter_congr
          intro g hg
          by_cases hgm : get_file_extension g = "mp4"
          · have hne : flacName g ≠ flacName f := by
              intro he
              apply hni
              rw [← he]
              exact List.mem_map_of_mem flacName
                (List.mem_filter.mpr ⟨hg, by simp [hgm]⟩)
            simp [hgm, hne]
          · simp [hgm]
        simp only [extractGo, hm, hin, if_true, if_false]
        rw [ih (audio ++ [flacName f]) (acc ++ [f]) hnd', hcongr,
          List.filter_cons_of_pos (by simp [hm, hin])]
        simp
    · rw [List.filter_cons_of_neg (by simp [hm])] at hnd
      simp only [extractGo, hm, if_false]
      rw [ih audio acc hnd, List.filter_cons_of_neg (by simp [hm])]

/-- A sentinel anywhere among the chunks still to drain makes the drain
return (discarding the data gathered so far), whatever was accumulated. -/
theorem drainRound_sentinel (cs : List (Option SpeechToTextStream.Chunk))
    (h : none ∈ cs) :
    ∀ acc, SpeechToTextStream.drainRound acc cs = none := by
  induction cs with
  | nil => cases h
  | cons o rest ih =>
    intro acc
    cases o with
    | none => rfl
    | some c =>
      have hr : none ∈ rest := by
        rcases List.mem_cons.mp h with h' | h'
        · cases h'
        · exact h'
      simpa [SpeechToTextStream.drainRound] using ih hr (acc ++ [c])

/-- Writing a file and reading it back yields the written content,
whatever the file held before (mode `"w+"` truncates). -/
theorem lookupFile_setFile_self (k : String) (v : List String)
    (fs : List (String × List String)) :
    lookupFile k (setFile k v fs) = some v := by
  induction fs with
  | nil => simp [setFile, lookupFile]
  | cons kv rest ih =>
    by_cases h : kv.1 = k
    · simp [setFile, lookupFile, h]
    · simpa [setFile, lookupFile, h] using ih

/-- Writing one file leaves every other file's content unchanged. -/
theorem lookupFile_setFile_ne (k k' : String) (v : List String)
    (fs : List (String × List String)) (h : k' ≠ k) :
    lookupFile k (setFile k' v fs) = lookupFile k fs := by
  induction fs with
  | nil => simp [setFile, lookupFile, h]
  | cons kv rest ih =>
    by_cases hkv : kv.1 = k'
    · simp [setFile, lookupFile, hkv, h]
    · by_cases hk : kv.1 = k
      · simp [setFile, lookupFile, hkv, hk, h.symm]
      · simpa [setFile, lookupFile, hkv, hk] using ih

/-- The names returned by the recognition loop are exactly the remote
blobs whose extension is `flac`, in listing order. -/
theorem recognizeGo_names (responses : String → List RecogResult)
    (blobs : List String) :
    ∀ tf dirE acc, (recognizeGo responses tf dirE acc blobs).1 =
      acc ++ blobs.filter (fun b => decide (get_file_extension b = "flac")) := by
  induction blobs with
  | nil => intro tf dirE acc; simp [recognizeGo]
  | cons b rest ih =>
    intro tf dirE acc
    by_cases h : get_file_extension b = "flac"
    · simp [recognizeGo, h, ih, List.filter_cons]
    · simp [recognizeGo, h, ih, List.filter_cons]

/-- A transcript file whose stem matches no processed blob is untouched
by the recognition loop. -/
theorem recognizeGo_preserves (responses : String → List RecogResult)
    (blobs : List String) (k : String) :
    ∀ tf dirE acc,
      (∀ b ∈ blobs, get_file_extension b = "flac" → dropLastChars b 5 ≠ k) →
      lookupFile k (recognizeGo responses tf dirE acc blobs).2.1 = lookupFile k tf := by
  induction blobs with
  | nil => intro tf dirE acc _; rfl
  | cons b rest ih =>
    intro tf dirE acc h
    by_cases hb : get_file_extension b = "flac"
    · have hne : dropLastChars b 5 ≠ k := h b (by simp) hb
      simp only [recognizeGo, hb, if_true]
      rw [ih _ _ _ (fun g hg => h g (by simp [hg])),
        lookupFile_setFile_ne _ _ _ _ hne]
    · simp only [recognizeGo, hb, if_false]
      exact ih _ _ _ (fun g hg => h g (by simp [hg]))

/-- The `dirE` flag never drops back to `false` once `true`. -/
theorem recognizeGo_dir_true (responses : String → List RecogResult)
    (blobs : List String) :
    ∀ tf acc, (recognizeGo responses tf true acc blobs).2.2 = true := by
  induction blobs with
  | nil => intro tf acc; rfl
  | cons b rest ih =>
    intro tf acc
    by_cases hb : get_file_extension b = "flac"
    · simp only [recognizeGo, hb, if_true]; exact ih _ _
    · simp only [recognizeGo, hb, if_false]; exact ih _ _

/-- After the recognition loop, the transcript file of a processed blob
holds exactly the lines written for that blob's response, whatever the
file held before — provided no two processed blobs share a stem. -/
theorem recognizeGo_lookup (responses : String → List RecogResult)
    (blobs : List String) (b : String) (hb : b ∈ blobs)
    (hext : get_file_extension b = "flac")
    (hnd : ((blobs.filter (fun x => decide (get_file_extension x = "flac"))).map
      (fun x => dropLastChars x 5)).Nodup) :
    ∀ tf dirE acc,
      lookupFile (dropLastChars b 5) (recognizeGo responses tf dirE acc blobs).2.1 =
        some (transcriptLines (responses b)) := by
  induction blobs with
  | nil => cases hb
  | cons x rest ih =>
    intro tf dirE acc
    rcases List.mem_cons.mp hb with hbx | hbtail
    · subst hbx
      rw [List.filter_cons_of_pos (by simp [hext]), List.map_cons,
        List.nodup_cons] at hnd
      simp only [recognizeGo, hext, if_true]
      rw [recognizeGo_preserves responses rest (dropLastChars b 5) _ _ _ ?_,
        lookupFile_setFile_self]
      intro g hg hgext he
      exact hnd.1 (he ▸ List.mem_map_of_mem _
        (List.mem_filter.mpr ⟨hg, by simp [hgext]⟩))
    · by_cases hx : get_file_extension x = "flac"
      · rw [List.filter_cons_of_pos (by simp [hx]), List.map_cons,
          List.nodup_cons] at hnd
        simp only [recognizeGo, hx, if_true]
        exact ih hbtail hnd.2 _ _ _
      · rw [List.filter_cons_of_neg (by simp [hx])] at hnd
        simp only [recognizeGo, hx, if_false]
        exact ih hbtail hnd _ _ _

/-- `takeWhile` of a satisfying block followed by a failing element is
the block. -/
theorem takeWhile_append_block {α : Type} {p : α → Bool} (l1 : List α) (b : α)
    (l2 : List α) (h : ∀ x ∈ l1, p x = true) (hb : p b = false) :
    (l1 ++ b :: l2).takeWhile p = l1 := by
  induction l1 with
  | nil => simp [List.takeWhile_cons, hb]
  | cons a l1' ih =>
    have ha := h a (by simp)
    simp [List.takeWhile_cons, ha, ih (fun x hx => h x (by simp [hx]))]

/-- `dropWhile` of a satisfying block followed by a failing element is
the remainder from that element on. -/
theorem dropWhile_append_block {α : Type} {p : α → Bool} (l1 : List α) (b : α)
    (l2 : List α) (h : ∀ x ∈ l1, p x = true) (hb : p b = false) :
    (l1 ++ b :: l2).dropWhile p = b :: l2 := by
  induction l1 with
  | nil => simp [List.dropWhile_cons, hb]
  | cons a l1' ih =>
    have ha := h a (by simp)
    simp [List.dropWhile_cons, ha, ih (fun x hx => h x (by simp [hx]))]

/-- The head surviving a `dropWhile` fails the predicate. -/
theorem dropWhile_head_false {α : Type} {p : α → Bool} :
    ∀ (l : List α) (hd : α) (tl : List α), l.dropWhile p = hd :: tl → p hd = false := by
  intro l
  induction l with
  | nil => intro hd tl h; cases h
  | cons a l' ih =>
    intro hd tl h
    by_cases ha : p a
    · rw [List.dropWhile_cons, if_pos ha] at h
      exact ih hd tl h
    · rw [List.dropWhile_cons, if_neg ha] at h
      cases h
      simpa using ha

/-- `os.path.splitext` on a name of the form `root ++ "." ++ e`, where
the added extension `e` holds no dot and the root holds some non-dot
character, recovers `"." ++ e`. -/
theorem fileExt_append (cs e : List Char) (hdot : '.' ∉ e)
    (hnz : cs.any (fun c => c != '.') = true) :
    SpeechToText.fileExt (cs ++ '.' :: e) = '.' :: e := by
  have hrev : (cs ++ '.' :: e).reverse = e.reverse ++ '.' :: cs.reverse := by
    simp
  have hall : ∀ x ∈ e.reverse, (x != '.') = true := by
    intro x hx
    have : x ∈ e := List.mem_reverse.mp hx
    simp only [bne_iff_ne, ne_eq]
    intro he
    exact hdot (he ▸ this)
  have hdotf : (('.' : Char) != '.') = false := by decide
  have hdw : (e.reverse ++ '.' :: cs.reverse).dropWhile (fun c => c != '.') =
      '.' :: cs.reverse :=
    dropWhile_append_block e.reverse '.' cs.reverse hall hdotf
  have htw : (e.reverse ++ '.' :: cs.reverse).takeWhile (fun c => c != '.') =
      e.reverse :=
    takeWhile_append_block e.reverse '.' cs.reverse hall hdotf
  have hanyrev : cs.reverse.any (fun c => c != '.') = true := by
    rw [List.any_reverse]
    exact hnz
  unfold SpeechToText.fileExt
  rw [hrev]
  dsimp only
  rw [hdw, htw]
  simp [hanyrev]

/-- Decomposition of a name with extension `mp4`: the name is its root
followed by a dot and three characters lowercasing to `mp4`, the root is
recovered by `file_name[:-4]`, and the root holds a non-dot character. -/
theorem ext_mp4_decomp (f : String)
    (hm : SpeechToText.get_file_extension f = "mp4") :
    ∃ pre suf : List Char,
      f.data = pre ++ '.' :: suf ∧
      suf.length = 3 ∧
      SpeechToText.dropLastChars f 4 = String.mk pre ∧
      pre.any (fun c => c != '.') = true := by
  have hdata : ((SpeechToText.fileExt f.data).map Char.toLower).drop 1 =
      ['m', 'p', '4'] := by
    have := congrArg String.data hm
    simpa [SpeechToText.get_file_extension] using this
  cases hdw : f.data.reverse.dropWhile (fun c => c != '.') with
  | nil =>
    rw [show SpeechToText.fileExt f.data = [] from by
      simp [SpeechToText.fileExt, hdw]] at hdata
    cases hdata
  | cons hd before =>
    by_cases hany : before.any (fun c => c != '.') = true
    · have hhd : hd = '.' := by
        have := dropWhile_head_false f.data.reverse hd before hdw
        simpa using this
      have hext : SpeechToText.fileExt f.data =
          '.' :: (f.data.reverse.takeWhile (fun c => c != '.')).reverse := by
        simp [SpeechToText.fileExt, hdw, hany]
      rw [hext] at hdata
      have hlen3 : (f.data.reverse.takeWhile (fun c => c != '.')).reverse.length = 3 := by
        have := congrArg List.length hdata
        simpa using this
      refine ⟨before.reverse,
        (f.data.reverse.takeWhile (fun c => c != '.')).reverse, ?_, hlen3, ?_, ?_⟩
      · have hsplit : f.data.reverse.takeWhile (fun c => c != '.') ++
            f.data.reverse.dropWhile (fun c => c != '.') = f.data.reverse :=
          List.takeWhile_append_dropWhile _ _
        rw [hdw, hhd] at hsplit
        calc f.data = f.data.reverse.reverse := by rw [List.reverse_reverse]
        _ = (f.data.reverse.takeWhile (fun c => c != '.') ++
              '.' :: before).reverse := by rw [hsplit]
        _ = before.reverse ++ '.' ::
              (f.data.reverse.takeWhile (fun c => c != '.')).reverse := by simp
      · have hsplit : f.data.reverse.takeWhile (fun c => c != '.') ++
            f.data.reverse.dropWhile (fun c => c != '.') = f.data.reverse :=
          List.takeWhile_append_dropWhile _ _
        rw [hdw, hhd] at hsplit
        have hfdata : f.data = before.reverse ++ '.' ::
            (f.data.reverse.takeWhile (fun c => c != '.')).reverse := by
          calc f.data = f.data.reverse.reverse := by rw [List.reverse_reverse]
          _ = (f.data.reverse.takeWhile (fun c => c != '.') ++
                '.' :: before).reverse := by rw [hsplit]
          _ = before.reverse ++ '.' ::
                (f.data.reverse.takeWhile (fun c => c != '.')).reverse := by simp
        have hlen : f.data.length = before.reverse.length + 4 := by
          rw [hfdata]
          simp [hlen3]
        unfold SpeechToText.dropLastChars
        rw [hlen, Nat.add_sub_cancel, hfdata]
        rw [show before.reverse ++ '.' ::
              (f.data.reverse.takeWhile (fun c => c != '.')).reverse =
            before.reverse ++ ('.' ::
              (f.data.reverse.takeWhile (fun c => c != '.')).reverse) from rfl,
          List.take_left]
      · rw [List.any_reverse]
        exact hany
    · rw [show SpeechToText.fileExt f.data = [] from by
        simp [SpeechToText.fileExt, hdw, hany]] at hdata
      cases hdata

/-- A file with extension `mp4` gets an artifact with extension `flac`:
`get_file_extension (flacName f) = "flac"` whenever
`get_file_extension f = "mp4"`. -/
theorem flacName_ext (f : String)
    (hm : SpeechToText.get_file_extension f = "mp4") :
    SpeechToText.get_file_extension (SpeechToText.flacName f) = "flac" := by
  obtain ⟨pre, suf, hdecomp, hlen, hdrop, hnz⟩ := ext_mp4_decomp f hm
  have hdataflac : (SpeechToText.flacName f).data =
      pre ++ '.' :: ['f', 'l', 'a', 'c'] := by
    show (SpeechToText.dropLastChars f 4 ++ ".flac").data = _
    rw [hdrop]
    rfl
  have hfe : SpeechToText.fileExt ((SpeechToText.flacName f).data) =
      '.' :: ['f', 'l', 'a', 'c'] := by
    rw [hdataflac]
    exact fileExt_append pre ['f', 'l', 'a', 'c'] (by decide) hnz
  unfold SpeechToText.get_file_extension
  rw [hfe]
  decide

/-- Appending the empty string is the identity. -/
theorem string_append_empty (s : String) : s ++ "" = s := by
  cases s with
  | mk data =>
    show String.mk (data ++ []) = String.mk data
    rw [List.append_nil]

/-- A zero tracker emits no padding. -/
theorem overwrite_chars_zero (len : Nat) :
    SpeechToTextStream.overwrite_chars 0 len = "" := by
  simp [SpeechToTextStream.overwrite_chars]

end Lemmas

/-- C5: with chunks `c1, c2, c3` enqueued before the consumer's blocking
`get`, `MicrophoneStream.generator` yields exactly one aggregated frame,
the concatenation `c1 ++ c2 ++ c3` in enqueue order; and whenever a
dequeued value is the `None` sentinel — on the blocking `get` or during
the non-blocking drain — the generator terminates and yields no further
frames (the rounds after the sentinel's round contribute nothing, and the
sentinel's own round yields nothing, even dropping chunks drained before
the sentinel in that round). -/
theorem C5_generator :
    (∀ c1 c2 c3 : SpeechToTextStream.Chunk,
      SpeechToTextStream.generator [[some c1, some c2, some c3]] = [c1 ++ c2 ++ c3]) ∧
    (∀ r : List (Option SpeechToTextStream.Chunk), none ∈ r →
      ∀ pre post, SpeechToTextStream.generator (pre ++ r :: post) =
        SpeechToTextStream.generator (pre ++ [r])) ∧
    (∀ r : List (Option SpeechToTextStream.Chunk), none ∈ r →
      SpeechToTextStream.generator [r] = []) := by
  have hone : ∀ r : List (Option SpeechToTextStream.Chunk), none ∈ r →
      ∀ post, SpeechToTextStream.generator (r :: post) = [] := by
    intro r hr post
    match r with
    | [] => cases hr
    | none :: cs => rfl
    | some c :: cs =>
      have hcs : none ∈ cs := by
        rcases List.mem_cons.mp hr with h' | h'
        · cases h'
        · exact h'
      simp [SpeechToTextStream.generator, drainRound_sentinel cs hcs]
  refine ⟨?_, ?_, ?_⟩
  · intro c1 c2 c3
    simp [SpeechToTextStream.generator, SpeechToTextStream.drainRound]
  · intro r hr pre post
    induction pre with
    | nil =>
      simp only [List.nil_append]
      rw [hone r hr post, hone r hr []]
    | cons p pre' ih =>
      match p with
      | [] => rfl
      | none :: cs => rfl
      | some c :: cs =>
        simp only [List.cons_append, SpeechToTextStream.generator, List.append_eq]
        cases hd : SpeechToTextStream.drainRound [c] cs with
        | none => rfl
        | some data => simp only [ih]
  · intro r hr
    exact hone r hr []

/-- Witness for C5: a queue round holding a chunk and then the sentinel
produces no frames, whatever is enqueued afterwards. -/
theorem C5_generator_witness :
    SpeechToTextStream.generator [[some [1], none], [some [2]]] = [] := by
  have h2 := C5_generator.2.1 [some [1], none] (by decide) [] [[some [2]]]
  have h3 := C5_generator.2.2 [some [1], none] (by decide)
  simp only [List.nil_append] at h2
  exact h2.trans h3

/-- C7: `get_language_code` is a pure total function with the five stated
values; every input other than the four recognized codes (including the
default `"yue"`) maps to `"yue-Hant-HK"`, and the copies in
src/speech_to_text.py and src/speech_to_text_stream.py are extensionally
equal. -/
theorem C7_get_language_code :
    SpeechToText.get_language_code "zh" = "zh" ∧
    SpeechToText.get_language_code "hk" = "zh-HK" ∧
    SpeechToText.get_language_code "tw" = "zh-TW" ∧
    SpeechToText.get_language_code "en" = "en-US" ∧
    SpeechToText.get_language_code "yue" = "yue-Hant-HK" ∧
    (∀ l : String, l ≠ "zh" → l ≠ "hk" → l ≠ "tw" → l ≠ "en" →
      SpeechToText.get_language_code l = "yue-Hant-HK") ∧
    (∀ l : String,
      SpeechToText.get_language_code l = SpeechToTextStream.get_language_code l) := by
  refine ⟨by decide, by decide, by decide, by decide, by decide, ?_, fun l => rfl⟩
  intro l h1 h2 h3 h4
  simp [SpeechToText.get_language_code, h1, h2, h3, h4]

/-- Witness for C7 at the unrecognized input `"fr"`. -/
theorem C7_get_language_code_witness :
    SpeechToText.get_language_code "fr" = "yue-Hant-HK" :=
  C7_get_language_code.2.2.2.2.2.1 "fr" (by decide) (by decide) (by decide) (by decide)

/-- C8: `check_directory` terminates the process with exit status 0 (a
`sys.exit(0)`, not a propagated exception) exactly when the video
directory is absent or holds no file with extension `mp4`
(case-insensitively, via `get_file_extension`); otherwise it returns
normally with the audio and text directories created and every other part
of the state — in particular the video directory — unchanged. -/
theorem C8_check_directory (s : SpeechToText.PipelineState) :
    (SpeechToText.check_directory s = SpeechToText.CheckResult.exited 0 ↔
      s.videoDirExists = false ∨
        ∀ f ∈ s.videoFiles, SpeechToText.get_file_extension f ≠ "mp4") ∧
    (∀ hv : s.videoDirExists = true,
     ∀ f, f ∈ s.videoFiles → SpeechToText.get_file_extension f = "mp4" →
      SpeechToText.check_directory s =
        SpeechToText.CheckResult.ok
          { s with audioDirExists := true, textDirExists := true }) := by
  unfold SpeechToText.check_directory
  by_cases hv : s.videoDirExists = true
  · by_cases hEx : ∃ f ∈ s.videoFiles, SpeechToText.get_file_extension f = "mp4"
    · rw [if_pos hv, if_pos hEx]
      constructor
      · constructor
        · intro h; exact absurd h (by simp)
        · rintro (h | h)
          · rw [hv] at h; cases h
          · obtain ⟨f, hf, hm⟩ := hEx
            exact absurd hm (h f hf)
      · intro _ _ _ _; rfl
    · rw [if_pos hv, if_neg hEx]
      constructor
      · constructor
        · intro _
          right
          intro f hf hm
          exact hEx ⟨f, hf, hm⟩
        · intro _; rfl
      · intro _ f hf hm
        exact absurd ⟨f, hf, hm⟩ hEx
  · rw [if_neg hv]
    constructor
    · constructor
      · intro _
        left
        simpa using hv
      · intro _; rfl
    · intro hv'
      exact absurd hv' hv

/-- Witness for C8: a state whose video directory is absent makes
`check_directory` exit with status 0. -/
theorem C8_check_directory_witness :
    SpeechToText.check_directory
      { videoDirExists := false, videoFiles := [], audioDirExists := false,
        audioFiles := [], textDirExists := false, textFiles := [],
        remoteBlobs := [] } = SpeechToText.CheckResult.exited 0 :=
  (C8_check_directory _).1.mpr (Or.inl rfl)

/-- C6: `upload_audio_to_cloud_storage` builds its membership set from the
single pre-loop listing of the remote store; every local `.flac` artifact
already in that listing is skipped, every one absent from it is uploaded,
and the returned list is exactly the names actually uploaded (which the
remote listing then also gains, in order). -/
theorem C6_upload_skip (s : SpeechToText.PipelineState) :
    ((SpeechToText.upload_audio_to_cloud_storage s).1 =
      s.audioFiles.filter
        (fun f => decide (SpeechToText.get_file_extension f = "flac" ∧
          f ∉ s.remoteBlobs))) ∧
    ((SpeechToText.upload_audio_to_cloud_storage s).2.remoteBlobs =
      s.remoteBlobs ++ (SpeechToText.upload_audio_to_cloud_storage s).1) ∧
    ((SpeechToText.upload_audio_to_cloud_storage s).2.audioFiles = s.audioFiles) ∧
    ((SpeechToText.upload_audio_to_cloud_storage s).2.videoFiles = s.videoFiles) ∧
    (∀ f, f ∈ s.remoteBlobs → f ∉ (SpeechToText.upload_audio_to_cloud_storage s).1) ∧
    (∀ f, f ∈ s.audioFiles → SpeechToText.get_file_extension f = "flac" →
      f ∉ s.remoteBlobs → f ∈ (SpeechToText.upload_audio_to_cloud_storage s).1) := by
  have hspec := uploadGo_spec s.remoteBlobs s.audioFiles s.remoteBlobs []
  refine ⟨?_, ?_, rfl, rfl, ?_, ?_⟩
  · simp [SpeechToText.upload_audio_to_cloud_storage, hspec]
  · simp [SpeechToText.upload_audio_to_cloud_storage, hspec]
  · intro f hf hmem
    simp [SpeechToText.upload_audio_to_cloud_storage, hspec, List.mem_filter] at hmem
    exact hmem.2.2 hf
  · intro f hf hflac hnot
    simp [SpeechToText.upload_audio_to_cloud_storage, hspec, List.mem_filter]
    exact ⟨hf, hflac, hnot⟩

/-- C3: an interim result of display length 5 followed by a final result
of display length 3 makes `listen_print_loop` print the final line padded
with exactly `5 - 3 = 2` trailing spaces before the newline, and the
session transcript file receives only that final line (the interim text
is displayed with a carriage return but never persisted). -/
theorem C3_interim_then_final (a b : String) (ha : a.length = 5) (hb : b.length = 3) :
    SpeechToTextStream.listen_print_loop
        [SpeechToTextStream.interimResponse a, SpeechToTextStream.finalResponse b] =
      [SpeechToTextStream.OutEvent.interimDisplay a,
       SpeechToTextStream.OutEvent.finalDisplay
         (b ++ SpeechToTextStream.overwrite_chars 5 3),
       SpeechToTextStream.OutEvent.filePersist
         (b ++ SpeechToTextStream.overwrite_chars 5 3)] ∧
    SpeechToTextStream.overwrite_chars 5 3 = "  " ∧
    SpeechToTextStream.fileLines
      (SpeechToTextStream.listen_print_loop
        [SpeechToTextStream.interimResponse a, SpeechToTextStream.finalResponse b]) =
      [b ++ SpeechToTextStream.overwrite_chars 5 3] := by
  have htrace : SpeechToTextStream.listen_print_loop
      [SpeechToTextStream.interimResponse a, SpeechToTextStream.finalResponse b] =
      [SpeechToTextStream.OutEvent.interimDisplay a,
       SpeechToTextStream.OutEvent.finalDisplay
         (b ++ SpeechToTextStream.overwrite_chars 5 3),
       SpeechToTextStream.OutEvent.filePersist
         (b ++ SpeechToTextStream.overwrite_chars 5 3)] := by
    simp only [SpeechToTextStream.listen_print_loop, SpeechToTextStream.listenGo,
      SpeechToTextStream.loopStep, SpeechToTextStream.interimResponse,
      SpeechToTextStream.finalResponse, ha, hb, overwrite_chars_zero,
      string_append_empty]
    by_cases hk : SpeechToTextStream.containsExitKeyword b <;> simp [hk]
  refine ⟨htrace, by decide, ?_⟩
  rw [htrace]
  simp [SpeechToTextStream.fileLines]

/-- Witness for C3 at the interim `"abcde"` and the final `"abc"`. -/
theorem C3_interim_then_final_witness :
    SpeechToTextStream.listen_print_loop
        [SpeechToTextStream.interimResponse "abcde",
         SpeechToTextStream.finalResponse "abc"] =
      [SpeechToTextStream.OutEvent.interimDisplay "abcde",
       SpeechToTextStream.OutEvent.finalDisplay
         ("abc" ++ SpeechToTextStream.overwrite_chars 5 3),
       SpeechToTextStream.OutEvent.filePersist
         ("abc" ++ SpeechToTextStream.overwrite_chars 5 3)] ∧
    SpeechToTextStream.overwrite_chars 5 3 = "  " ∧
    SpeechToTextStream.fileLines
      (SpeechToTextStream.listen_print_loop
        [SpeechToTextStream.interimResponse "abcde",
         SpeechToTextStream.finalResponse "abc"]) =
      ["abc" ++ SpeechToTextStream.overwrite_chars 5 3] :=
  C3_interim_then_final "abcde" "abc" (by decide) (by decide)

/-- C4: a final result whose transcript holds `exit` or `quit` as a
standalone word (word-boundary, case-insensitive) makes the loop break,
ending the session with no further responses processed; `"please exit
now"` triggers it, `"exiting"` does not, and an interim result never
does. -/
theorem C4_exit_keyword :
    (∀ (num : Nat) (t : String) (alts : List String)
       (rest : List SpeechToTextStream.StreamResult),
      SpeechToTextStream.containsExitKeyword t = true →
      (SpeechToTextStream.loopStep num
        { results := { alternatives := t :: alts, is_final := true } :: rest }).2.2 =
        true) ∧
    SpeechToTextStream.containsExitKeyword "please exit now" = true ∧
    SpeechToTextStream.containsExitKeyword "exiting" = false ∧
    (∀ num : Nat,
      (SpeechToTextStream.loopStep num
        (SpeechToTextStream.finalResponse "exiting")).2.2 = false) ∧
    (∀ (num : Nat) (resp : SpeechToTextStream.StreamResponse)
       (res : SpeechToTextStream.StreamResult)
       (rest : List SpeechToTextStream.StreamResult),
      resp.results = res :: rest → res.is_final = false →
      (SpeechToTextStream.loopStep num resp).2.2 = false) ∧
    (∀ (num : Nat) (resp : SpeechToTextStream.StreamResponse)
       (rest : List SpeechToTextStream.StreamResponse),
      (SpeechToTextStream.loopStep num resp).2.2 = true →
      SpeechToTextStream.listenGo num (resp :: rest) =
        (SpeechToTextStream.loopStep num resp).1) := by
  refine ⟨?_, by decide, by decide, ?_, ?_, ?_⟩
  · intro num t alts rest h
    simp [SpeechToTextStream.loopStep, h]
  · intro num
    simp [SpeechToTextStream.loopStep, SpeechToTextStream.finalResponse,
      show SpeechToTextStream.containsExitKeyword "exiting" = false from by decide]
  · intro num resp res rest hres hfin
    cases halts : res.alternatives with
    | nil => simp [SpeechToTextStream.loopStep, hres, halts]
    | cons t alts => simp [SpeechToTextStream.loopStep, hres, halts, hfin]
  · intro num resp rest h
    simp [SpeechToTextStream.listenGo, h]

/-- Witness for C4 at the final transcript `"please exit now"`. -/
theorem C4_exit_keyword_witness :
    (SpeechToTextStream.loopStep 0
      (SpeechToTextStream.finalResponse "please exit now")).2.2 = true :=
  C4_exit_keyword.1 0 "please exit now" [] [] (by decide)

/-- C10 counterexample: the tracker does NOT reset to 0 after every
final result.  On a final result holding an exit keyword the `break`
(line 161) fires before the reset (line 163): starting from
`num_chars_printed = 7`, the final transcript `"please exit now"` breaks
the loop and leaves the tracker at 7, not 0. -/
theorem C10_tracker_counterexample :
    (SpeechToTextStream.loopStep 7
      (SpeechToTextStream.finalResponse "please exit now")).2.2 = true ∧
    (SpeechToTextStream.loopStep 7
      (SpeechToTextStream.finalResponse "please exit now")).2.1 = 7 ∧
    (7 : Nat) ≠ 0 :=
  ⟨by decide, by decide, by decide⟩

/-- C10 amended: the padding appended to any displayed or persisted line
is `' ' * (num_chars_printed - len(transcript))`, whose length is
`max 0 (previous printed count - current length)`; when the current
transcript is at least as long as the previous one the padding is empty
(Python's `' ' * n` of a non-positive `n`, no error).  The tracker is
reset to 0 after every final result on which the loop does not break;
on an exit-keyword final the `break` precedes the reset, so the tracker
keeps its previous value as the loop terminates. -/
theorem C10_overwrite_padding :
    (∀ num len : Nat,
      ((SpeechToTextStream.overwrite_chars num len).length : Int) =
        max ((num : Int) - (len : Int)) 0) ∧
    (∀ num len : Nat, num ≤ len →
      SpeechToTextStream.overwrite_chars num len = "") ∧
    (∀ (num : Nat) (t : String),
      (SpeechToTextStream.loopStep num (SpeechToTextStream.interimResponse t)).1 =
        [SpeechToTextStream.OutEvent.interimDisplay
          (t ++ SpeechToTextStream.overwrite_chars num t.length)] ∧
      (SpeechToTextStream.loopStep num
        (SpeechToTextStream.interimResponse t)).2.1 = t.length) ∧
    (∀ (num : Nat) (t : String),
      (SpeechToTextStream.loopStep num (SpeechToTextStream.finalResponse t)).2.2 =
        false →
      (SpeechToTextStream.loopStep num (SpeechToTextStream.finalResponse t)).2.1 =
        0) ∧
    (∀ (num : Nat) (t : String),
      (SpeechToTextStream.loopStep num (SpeechToTextStream.finalResponse t)).2.2 =
        true →
      (SpeechToTextStream.loopStep num (SpeechToTextStream.finalResponse t)).2.1 =
        num) := by
  refine ⟨?_, ?_, ?_, ?_, ?_⟩
  · intro num len
    simp [SpeechToTextStream.overwrite_chars, String.length]
    omega
  · intro num len h
    simp [SpeechToTextStream.overwrite_chars, Nat.sub_eq_zero_of_le h]
  · intro num t
    constructor <;>
      simp [SpeechToTextStream.loopStep, SpeechToTextStream.interimResponse]
  · intro num t h
    by_cases hk : SpeechToTextStream.containsExitKeyword t
    · simp [SpeechToTextStream.loopStep, SpeechToTextStream.finalResponse, hk] at h
    · simp [SpeechToTextStream.loopStep, SpeechToTextStream.finalResponse, hk]
  · intro num t h
    by_cases hk : SpeechToTextStream.containsExitKeyword t
    · simp [SpeechToTextStream.loopStep, SpeechToTextStream.finalResponse, hk]
    · simp [SpeechToTextStream.loopStep, SpeechToTextStream.finalResponse, hk] at h

/-- Witness for C10's amended theorem: a transcript no shorter than the
previous printed count yields empty padding, a non-breaking final result
resets the tracker, and a breaking final result keeps it. -/
theorem C10_overwrite_padding_witness :
    SpeechToTextStream.overwrite_chars 3 5 = "" ∧
    (SpeechToTextStream.loopStep 7
      (SpeechToTextStream.finalResponse "abc")).2.1 = 0 ∧
    (SpeechToTextStream.loopStep 7
      (SpeechToTextStream.finalResponse "please exit now")).2.1 = 7 :=
  ⟨C10_overwrite_padding.2.1 3 5 (by decide),
   C10_overwrite_padding.2.2.2.1 7 "abc" (by decide),
   C10_overwrite_padding.2.2.2.2 7 "please exit now" (by decide)⟩

/-- C1 counterexample: re-running the pipeline does NOT make all three
stage functions return empty lists.  From one video `a.mp4` the first run
transcodes, uploads and recognizes `a`; the second run transcodes nothing
and uploads nothing, but `recognize_speech_from_audio` — which has no
skip policy — returns `["a.flac"]` again, not `[]`. -/
theorem C1_idempotence_counterexample :
    SpeechToText.runPipeline "yue" (fun _ => []) videoOnlyState =
      some (["a.mp4"], ["a.flac"], ["a.flac"],
        { videoDirExists := true, videoFiles := ["a.mp4"],
          audioDirExists := true, audioFiles := ["a.flac"],
          textDirExists := true, textFiles := [("a", [])],
          remoteBlobs := ["a.flac"] }) ∧
    SpeechToText.runPipeline "yue" (fun _ => [])
        { videoDirExists := true, videoFiles := ["a.mp4"],
          audioDirExists := true, audioFiles := ["a.flac"],
          textDirExists := true, textFiles := [("a", [])],
          remoteBlobs := ["a.flac"] } =
      some ([], [], ["a.flac"],
        { videoDirExists := true, videoFiles := ["a.mp4"],
          audioDirExists := true, audioFiles := ["a.flac"],
          textDirExists := true, textFiles := [("a", [])],
          remoteBlobs := ["a.flac"] }) ∧
    (["a.flac"] : List String) ≠ [] :=
  ⟨by decide, by decide, by decide⟩

/-- C1 amended: a second run of the full pipeline over the state left by
a first run (no new inputs, no removed artifacts, unchanged remote store,
same service responses) transcodes zero items and uploads zero items —
`extract_audio_from_video` and `upload_audio_to_cloud_storage` return
empty lists — but `recognize_speech_from_audio`, having no skip policy,
returns the same non-empty list of remote `.flac` objects as the first
run rather than an empty list. -/
theorem C1_second_run (language : String)
    (responses : String → List SpeechToText.RecogResult)
    (s0 : SpeechToText.PipelineState) (e1 u1 r1 : List String)
    (s1 : SpeechToText.PipelineState)
    (h1 : SpeechToText.runPipeline language responses s0 = some (e1, u1, r1, s1)) :
    r1 ≠ [] ∧
    Option.map (fun q => (q.1, q.2.1, q.2.2.1))
      (SpeechToText.runPipeline language responses s1) =
      some (([] : List String), ([] : List String), r1) := by
  by_cases hv : s0.videoDirExists = true
  case neg =>
    have hc : SpeechToText.check_directory s0 = SpeechToText.CheckResult.exited 0 := by
      unfold SpeechToText.check_directory
      rw [if_neg hv]
    unfold SpeechToText.runPipeline at h1
    rw [hc] at h1
    cases h1
  case pos =>
  by_cases hEx : ∃ f ∈ s0.videoFiles, SpeechToText.get_file_extension f = "mp4"
  case neg =>
    have hc : SpeechToText.check_directory s0 = SpeechToText.CheckResult.exited 0 := by
      unfold SpeechToText.check_directory
      rw [if_pos hv, if_neg hEx]
    unfold SpeechToText.runPipeline at h1
    rw [hc] at h1
    cases h1
  case pos =>
  have hc : SpeechToText.check_directory s0 =
      SpeechToText.CheckResult.ok
        { s0 with audioDirExists := true, textDirExists := true } := by
    unfold SpeechToText.check_directory
    rw [if_pos hv, if_pos hEx]
  unfold SpeechToText.runPipeline at h1
  rw [hc] at h1
  simp only [Option.some.injEq, Prod.mk.injEq] at h1
  obtain ⟨-, -, hr1, hs1⟩ := h1
  have hflacs : ∀ f ∈ s0.videoFiles, SpeechToText.get_file_extension f = "mp4" →
      SpeechToText.flacName f ∈
        (SpeechToText.extractGo s0.audioFiles [] s0.videoFiles).2 :=
    extractGo_ensures s0.videoFiles s0.audioFiles []
  have hremB : ∀ g ∈ (SpeechToText.extractGo s0.audioFiles [] s0.videoFiles).2,
      SpeechToText.get_file_extension g = "flac" →
      g ∈ (SpeechToText.uploadGo s0.remoteBlobs s0.remoteBlobs []
        (SpeechToText.extractGo s0.audioFiles [] s0.videoFiles).2).2 := by
    intro g hg hfl
    have hrb : (SpeechToText.uploadGo s0.remoteBlobs s0.remoteBlobs []
        (SpeechToText.extractGo s0.audioFiles [] s0.videoFiles).2).2 =
        s0.remoteBlobs ++
          ((SpeechToText.extractGo s0.audioFiles [] s0.videoFiles).2).filter
            (fun f => decide (SpeechToText.get_file_extension f = "flac" ∧
              f ∉ s0.remoteBlobs)) := by
      rw [uploadGo_spec]
    rw [hrb]
    by_cases hmem : g ∈ s0.remoteBlobs
    · exact List.mem_append_left _ hmem
    · exact List.mem_append_right _ (List.mem_filter.mpr ⟨hg, by simp [hfl, hmem]⟩)
  have hr1v : r1 = ((SpeechToText.uploadGo s0.remoteBlobs s0.remoteBlobs []
      (SpeechToText.extractGo s0.audioFiles [] s0.videoFiles).2).2).filter
        (fun x => decide (SpeechToText.get_file_extension x = "flac")) := by
    rw [← hr1]
    simpa using recognizeGo_names _ _ _ _ []
  have hs1video : s1.videoFiles = s0.videoFiles := by rw [← hs1]; rfl
  have hs1audio : s1.audioFiles =
      (SpeechToText.extractGo s0.audioFiles [] s0.videoFiles).2 := by
    rw [← hs1]; rfl
  have hs1remote : s1.remoteBlobs =
      (SpeechToText.uploadGo s0.remoteBlobs s0.remoteBlobs []
        (SpeechToText.extractGo s0.audioFiles [] s0.videoFiles).2).2 := by
    rw [← hs1]; rfl
  have hs1vde : s1.videoDirExists = true := by rw [← hs1]; exact hv
  have hs1ade : s1.audioDirExists = true := by rw [← hs1]; rfl
  have hs1tde : s1.textDirExists = true := by
    rw [← hs1]
    exact recognizeGo_dir_true responses _ _ []
  constructor
  · obtain ⟨f0, hf0, hf0m⟩ := hEx
    have ha := hflacs f0 hf0 hf0m
    have hb := flacName_ext f0 hf0m
    have hcmem := hremB _ ha hb
    rw [hr1v]
    exact List.ne_nil_of_mem (List.mem_filter.mpr ⟨hcmem, by simp [hb]⟩)
  · have hs1struct : { s1 with audioDirExists := true, textDirExists := true } = s1 := by
      apply SpeechToText.PipelineState.ext <;>
        first
          | rfl
          | exact hs1ade.symm
          | exact hs1tde.symm
    have hEx2 : ∃ f ∈ s1.videoFiles, SpeechToText.get_file_extension f = "mp4" := by
      rw [hs1video]; exact hEx
    have hc2 : SpeechToText.check_directory s1 = SpeechToText.CheckResult.ok s1 := by
      unfold SpeechToText.check_directory
      rw [if_pos hs1vde, if_pos hEx2, hs1struct]
    have hallf : ∀ f ∈ s1.videoFiles, SpeechToText.get_file_extension f = "mp4" →
        SpeechToText.flacName f ∈ s1.audioFiles := by
      intro f hf hm
      rw [hs1audio]
      exact hflacs f (by rwa [hs1video] at hf) hm
    have hex2 : SpeechToText.extract_audio_from_video s1 = ([], s1) := by
      unfold SpeechToText.extract_audio_from_video
      rw [extractGo_skip s1.videoFiles s1.audioFiles [] hallf]
    have hrem1 : ∀ g ∈ s1.audioFiles,
        SpeechToText.get_file_extension g = "flac" → g ∈ s1.remoteBlobs := by
      intro g hg hfl
      rw [hs1remote]
      exact hremB g (by rwa [hs1audio] at hg) hfl
    have hfil : s1.audioFiles.filter
        (fun f => decide (SpeechToText.get_file_extension f = "flac" ∧
          f ∉ s1.remoteBlobs)) = [] := by
      rw [List.filter_eq_nil_iff]
      intro g hg
      simp only [decide_eq_true_eq]
      intro h
      exact h.2 (hrem1 g hg h.1)
    have hup2 : SpeechToText.upload_audio_to_cloud_storage s1 = ([], s1) := by
      unfold SpeechToText.upload_audio_to_cloud_storage
      rw [uploadGo_spec s1.remoteBlobs s1.audioFiles s1.remoteBlobs [], hfil]
      simp only [List.nil_append, List.append_nil]
    have hr2v : (SpeechToText.recognize_speech_from_audio language responses s1).1 =
        r1 := by
      rw [hr1v]
      have hn := recognizeGo_names responses s1.remoteBlobs s1.textFiles
        s1.textDirExists []
      rw [show (SpeechToText.recognize_speech_from_audio language responses s1).1 =
          (SpeechToText.recognizeGo responses s1.textFiles s1.textDirExists []
            s1.remoteBlobs).1 from rfl, hn, List.nil_append, hs1remote]
    unfold SpeechToText.runPipeline
    rw [hc2]
    dsimp only
    rw [hex2]
    dsimp only
    rw [hup2]
    dsimp only
    rw [hr2v]
    rfl

/-- Witness for C1's amended theorem at the one-video run: the second run
reports no extraction and no upload but recognizes `["a.flac"]` again. -/
theorem C1_second_run_witness :
    (["a.flac"] : List String) ≠ [] ∧
    Option.map (fun q => (q.1, q.2.1, q.2.2.1))
      (SpeechToText.runPipeline "yue" (fun _ => [])
        { videoDirExists := true, videoFiles := ["a.mp4"],
          audioDirExists := true, audioFiles := ["a.flac"],
          textDirExists := true, textFiles := [("a", [])],
          remoteBlobs := ["a.flac"] }) =
      some (([] : List String), ([] : List String), ["a.flac"]) :=
  C1_second_run "yue" (fun _ => []) videoOnlyState ["a.mp4"] ["a.flac"] ["a.flac"]
    { videoDirExists := true, videoFiles := ["a.mp4"],
      audioDirExists := true, audioFiles := ["a.flac"],
      textDirExists := true, textFiles := [("a", [])],
      remoteBlobs := ["a.flac"] } (by decide)

/-- C9: for every remote `.flac` blob it processes,
`recognize_speech_from_audio` writes the blob's transcript file fresh —
the resulting content is `transcriptLines (responses b)` regardless of
what `s.textFiles` held for that stem before (mode `"w+"` truncates, so
nothing is appended) — with exactly one line per server-returned result
segment, in arrival order, each line the top-ranked alternative's
transcript and the lower-ranked alternatives discarded.  Stated for
remote listings in which no two `.flac` blobs share a stem (distinct blob
names can only clash through `.flac`/`.FLAC` case variants). -/
theorem C9_recognize_overwrite (s : SpeechToText.PipelineState)
    (language : String) (responses : String → List SpeechToText.RecogResult)
    (b : String) (hb : b ∈ s.remoteBlobs)
    (hext : SpeechToText.get_file_extension b = "flac")
    (hnd : ((s.remoteBlobs.filter
      (fun x => decide (SpeechToText.get_file_extension x = "flac"))).map
        (fun x => SpeechToText.dropLastChars x 5)).Nodup) :
    SpeechToText.lookupFile (SpeechToText.dropLastChars b 5)
      ((SpeechToText.recognize_speech_from_audio language responses s).2.textFiles) =
      some (SpeechToText.transcriptLines (responses b)) ∧
    SpeechToText.transcriptLines (responses b) =
      (responses b).map (fun r => r.1) ∧
    (SpeechToText.transcriptLines (responses b)).length = (responses b).length ∧
    (SpeechToText.recognize_speech_from_audio language responses s).1 =
      s.remoteBlobs.filter
        (fun x => decide (SpeechToText.get_file_extension x = "flac")) := by
  refine ⟨?_, rfl, by simp [SpeechToText.transcriptLines], ?_⟩
  · exact recognizeGo_lookup responses s.remoteBlobs b hb hext hnd
      s.textFiles s.textDirExists []
  · simpa using recognizeGo_names responses s.remoteBlobs
      s.textFiles s.textDirExists []

/-- Witness for C9: one remote blob `a.flac`, a stale transcript
`("a", ["old"])` on disk, and a response of two segments; the file ends
up holding exactly the two top alternatives, the old content gone. -/
theorem C9_recognize_overwrite_witness :
    SpeechToText.lookupFile (SpeechToText.dropLastChars "a.flac" 5)
      ((SpeechToText.recognize_speech_from_audio "yue"
        (fun _ => [("hello", ["alt1"]), ("world", [])])
        { videoDirExists := true, videoFiles := [], audioDirExists := true,
          audioFiles := [], textDirExists := true,
          textFiles := [("a", ["old"])],
          remoteBlobs := ["a.flac"] }).2.textFiles) =
      some ["hello", "world"] :=
  (C9_recognize_overwrite _ "yue" _ "a.flac" (by decide) (by decide) (by decide)).1

/-- C2 counterexample: `extract_audio_from_video` returns the processed
files' full names, not their stems.  With one video `a.mp4` and an empty
audio directory the function processes the file and returns `["a.mp4"]`,
which differs from the list of processed stems `["a"]`. -/
theorem C2_extract_counterexample :
    (SpeechToText.extract_audio_from_video videoOnlyState).1 = ["a.mp4"] ∧
    SpeechToText.dropLastChars "a.mp4" 4 = "a" ∧
    (SpeechToText.extract_audio_from_video videoOnlyState).1 ≠
      [SpeechToText.dropLastChars "a.mp4" 4] :=
  ⟨by decide, by decide, by decide⟩

/-- C2 amended: for every file of the video directory with extension
`mp4` (case-insensitive), `extract_audio_from_video` skips it exactly
when the artifact with the same stem and extension `.flac` already exists
in the audio directory, otherwise invokes ffmpeg exactly once for it
(creating the artifact), and returns the list of the processed files'
names — the full names with the `.mp4` extension, not the stems.  Stated
for listings in which distinct video files have distinct artifact names
(true of any real directory listing up to stem clashes between `.mp4` and
`.MP4` spellings). -/
theorem C2_extract_amended (s : SpeechToText.PipelineState)
    (hnd : s.videoFiles.Nodup)
    (hst : ((s.videoFiles.filter
      (fun f => decide (SpeechToText.get_file_extension f = "mp4"))).map
        SpeechToText.flacName).Nodup) :
    ((SpeechToText.extract_audio_from_video s).1 =
      s.videoFiles.filter
        (fun f => decide (SpeechToText.get_file_extension f = "mp4" ∧
          SpeechToText.flacName f ∉ s.audioFiles))) ∧
    ((SpeechToText.extract_audio_from_video s).2.audioFiles =
      s.audioFiles ++
        ((SpeechToText.extract_audio_from_video s).1).map SpeechToText.flacName) ∧
    (∀ f ∈ s.videoFiles, SpeechToText.get_file_extension f = "mp4" →
      (f ∈ (SpeechToText.extract_audio_from_video s).1 ↔
        SpeechToText.flacName f ∉ s.audioFiles)) ∧
    (∀ f ∈ (SpeechToText.extract_audio_from_video s).1,
      ((SpeechToText.extract_audio_from_video s).1).count f = 1) := by
  have hspec := extractGo_filter s.videoFiles s.audioFiles [] hst
  have hfst : (SpeechToText.extract_audio_from_video s).1 =
      s.videoFiles.filter
        (fun f => decide (SpeechToText.get_file_extension f = "mp4" ∧
          SpeechToText.flacName f ∉ s.audioFiles)) := by
    simp [SpeechToText.extract_audio_from_video, hspec]
  refine ⟨hfst, ?_, ?_, ?_⟩
  · simp [SpeechToText.extract_audio_from_video, hspec, hfst]
  · intro f hf hm
    rw [hfst]
    constructor
    · intro hmem
      have := (List.mem_filter.mp hmem).2
      simp at this
      exact this.2
    · intro hnin
      exact List.mem_filter.mpr ⟨hf, by simp [hm, hnin]⟩
  · intro f hf
    have hnodup : ((SpeechToText.extract_audio_from_video s).1).Nodup := by
      rw [hfst]; exact hnd.filter _
    exact List.count_eq_one_of_mem hnodup hf

/-- Witness for C2's amended theorem at the concrete one-video state:
`a.mp4` is processed (its artifact is absent) and appears exactly once. -/
theorem C2_extract_amended_witness :
    (SpeechToText.extract_audio_from_video videoOnlyState).1 = ["a.mp4"] ∧
    ("a.mp4" ∈ (SpeechToText.extract_audio_from_video videoOnlyState).1 ↔
      SpeechToText.flacName "a.mp4" ∉ videoOnlyState.audioFiles) :=
  ⟨(C2_extract_amended videoOnlyState (by decide) (by decide)).1,
   (C2_extract_amended videoOnlyState (by decide) (by decide)).2.2.1 "a.mp4"
     (by decide) (by decide)⟩

/-- Witness for C6: with one remote blob `"a.flac"` and audio files
`["a.flac", "b.flac"]`, the already-present `"a.flac"` is not re-uploaded
while `"b.flac"` is. -/
theorem C6_upload_skip_witness :
    "a.flac" ∉ (SpeechToText.upload_audio_to_cloud_storage
      { videoDirExists := true, videoFiles := [], audioDirExists := true,
        audioFiles := ["a.flac", "b.flac"], textDirExists := true,
        textFiles := [], remoteBlobs := ["a.flac"] }).1 ∧
    "b.flac" ∈ (SpeechToText.upload_audio_to_cloud_storage
      { videoDirExists := true, videoFiles := [], audioDirExists := true,
        audioFiles := ["a.flac", "b.flac"], textDirExists := true,
        textFiles := [], remoteBlobs := ["a.flac"] }).1 :=
  ⟨(C6_upload_skip _).2.2.2.2.1 "a.flac" (by decide),
   (C6_upload_skip _).2.2.2.2.2 "b.flac" (by decide) (by decide) (by decide)⟩
